import Mathlib

/-!
Shallow embedding of the Form Field Detection & Confidence-Scored Autofill
Engine of the job-applier repository (apps/extension/src/content.ts, with the
popup trigger protocol of apps/extension/src/popup.ts).

Modelling conventions:
* Scores are natural numbers in hundredths of the source's unit-interval
  scores (0.8 is 80, 0.95 is 95, the thresholds 0.5 / 0.65 / 0.8 are
  50 / 65 / 80).  The source computes scores as JS doubles; every value it can
  produce is an exact multiple of 0.01 (the base weights and 0.95, and the
  products baseScore * 0.8 = 0.48 / 0.56 / 0.64 / 0.72), so the hundredths
  scale is exact, and every comparison the source performs (against the tier
  thresholds and between candidate scores) has the same outcome on this scale
  as on the IEEE doubles, since no reachable double sits within rounding
  distance of a threshold and equal scores only arise from identical
  expressions.
* The JS regular expressions of the pattern table are embedded as a small
  regular-expression datatype with a Brzozowski-derivative matcher; `RE.test`
  mirrors JS `RegExp.test` (search for a match anywhere in the string).  The
  character class `[-_\s]` is embedded with the ASCII whitespace characters;
  the source and all inputs considered here are ASCII.
* `lowerStr` (ASCII lowercasing) stands in for JS `toLowerCase()`; they agree
  on ASCII, which covers the pattern table and the inputs considered here.
* A control (`Field`) carries its attributes directly; the associated-label
  lookup of `findLabel` (a DOM traversal) is represented by the resolved
  `labelText` of the control, `none` when no label is associated.
* The record update of `fillField` describes the per-kind write when it
  succeeds.  The host DOM setter additionally throws InvalidStateError when a
  non-empty string is assigned to a file input's value (HTML standard), and
  the source assigns unconditionally, with no try/catch; that error path is
  modelled by `fillThrows`, and `performAutofillHost` propagates the throw
  through the `forEach` the way the browser does, aborting the remaining
  matches.
-/

/-- Regular expressions, as needed for the pattern table of
`FormAutofiller.matchPattern` (content.ts lines 149-164): character literals,
character classes, concatenation, alternation and the `?` quantifier. -/
inductive RE where
  | eps
  | chr (c : Char)
  | cls (cs : List Char)
  | seq (a b : RE)
  | alt (a b : RE)
  | opt (a : RE)
deriving Repr, DecidableEq

/-- Whether the regular expression accepts the empty string. -/
def RE.nullable : RE → Bool
  | .eps => true
  | .chr _ => false
  | .cls _ => false
  | .seq a b => a.nullable && b.nullable
  | .alt a b => a.nullable || b.nullable
  | .opt _ => true

/-- Brzozowski derivative of a regular expression by one character. -/
def RE.deriv : RE → Char → RE
  | .eps, _ => .cls []
  | .chr c, x => if x = c then .eps else .cls []
  | .cls cs, x => if cs.contains x then .eps else .cls []
  | .seq a b, x =>
      if a.nullable then .alt (.seq (a.deriv x) b) (b.deriv x)
      else .seq (a.deriv x) b
  | .alt a b, x => .alt (a.deriv x) (b.deriv x)
  | .opt a, x => a.deriv x

/-- Whether some prefix of the character list matches the expression. -/
def RE.accepts : RE → List Char → Bool
  | r, [] => r.nullable
  | r, x :: s => r.nullable || (r.deriv x).accepts s

/-- Whether some substring starting at any position matches. -/
def RE.search : RE → List Char → Bool
  | r, [] => r.nullable
  | r, x :: s => r.accepts (x :: s) || r.search s

/-- JS `RegExp.test`: true when the pattern matches somewhere in the string. -/
def RE.test (r : RE) (s : String) : Bool := r.search s.toList

/-- The regular expression matching exactly the given literal string. -/
def RE.lit (s : String) : RE :=
  s.toList.foldr (fun ch r => RE.seq (RE.chr ch) r) RE.eps

/-- Alternation of a list of expressions (`a|b|c`). -/
def RE.anyOf : List RE → RE
  | [] => .cls []
  | r :: rs => rs.foldl RE.alt r

/-- The characters of the JS class `[-_\s]` (dash, underscore, whitespace);
the ASCII whitespace characters are listed, which is what the pattern table
relies on. -/
def sepChars : List Char := ['-', '_', ' ', '\t', '\n', '\r', '\x0b', '\x0c']

/-- The fragment `[-_\s]?` that joins words in the pattern table. -/
def sepOpt : RE := RE.opt (RE.cls sepChars)

/-- Words joined by optional separators, e.g. `first[-_\s]?name`. -/
def joinedL : List String → RE
  | [] => RE.eps
  | [a] => RE.lit a
  | a :: rest => RE.seq (RE.lit a) (RE.seq sepOpt (joinedL rest))

/-- A `(semanticKey, score)` pair produced by matching one raw signal
(content.ts line 90: `{ key: string; score: number }`). -/
structure Candidate where
  key : String
  score : ℕ
deriving Repr, DecidableEq

/-- One entry of the pattern table: a regex, the semantic key it maps to, and
the `split` marker of the first-name/last-name entries. -/
structure Pattern where
  regex : RE
  key : String
  split : Bool := false
deriving Repr

/-- The pattern table of `matchPattern` (content.ts lines 149-164), in source
order. -/
def patterns : List Pattern :=
  [ { regex := RE.anyOf [joinedL ["first", "name"], RE.lit "fname",
        joinedL ["given", "name"]], key := "legalName", split := true }
  , { regex := RE.anyOf [joinedL ["last", "name"], RE.lit "lname",
        RE.lit "surname", joinedL ["family", "name"]],
      key := "legalName", split := true }
  , { regex := RE.anyOf [joinedL ["full", "name"], RE.lit "name"],
      key := "legalName" }
  , { regex := RE.anyOf [RE.lit "email", joinedL ["e", "mail"]], key := "email" }
  , { regex := RE.anyOf [RE.lit "phone", RE.lit "tel", RE.lit "telephone",
        RE.lit "mobile"], key := "phone" }
  , { regex := RE.anyOf [RE.lit "linkedin", joinedL ["linked", "in"]],
      key := "linkedin" }
  , { regex := RE.anyOf [RE.lit "github", joinedL ["git", "hub"]],
      key := "github" }
  , { regex := RE.anyOf [RE.lit "portfolio", RE.lit "website",
        joinedL ["personal", "website"]], key := "portfolio" }
  , { regex := RE.anyOf [joinedL ["work", "authorization"],
        joinedL ["work", "auth"], joinedL ["authorized", "to", "work"]],
      key := "workAuth" }
  , { regex := RE.anyOf [joinedL ["visa", "status"], RE.lit "visa"],
      key := "visaStatus" }
  , { regex := RE.anyOf [RE.lit "salary", RE.lit "compensation", RE.lit "pay",
        joinedL ["expected", "salary"]], key := "salaryExpectation" }
  , { regex := RE.anyOf [RE.lit "availability", joinedL ["start", "date"],
        joinedL ["when", "can", "you", "start"]], key := "availability" }
  , { regex := RE.anyOf [RE.lit "relocation",
        joinedL ["willing", "to", "relocate"]], key := "relocation" }
  , { regex := RE.anyOf [RE.lit "remote", joinedL ["work", "remotely"],
        joinedL ["remote", "work"]], key := "remote" }
  ]

/-- ASCII lowercasing of one character (JS `toLowerCase` restricted to
ASCII). -/
def lowerChar (c : Char) : Char :=
  if 65 ≤ c.toNat ∧ c.toNat ≤ 90 then Char.ofNat (c.toNat + 32) else c

/-- ASCII lowercasing of a string. -/
def lowerStr (s : String) : String := ⟨s.data.map lowerChar⟩

/-- The function `FormAutofiller.matchPattern` (content.ts lines 144-178): lowercase the
signal text, test it against every table entry, and emit one candidate per
matching entry — at the signal's base score, discounted by the factor 0.8
(`* 4 / 5` in hundredths, exact for every base weight of the table) for the
split first/last-name entries. -/
def matchPattern (text : String) (baseScore : ℕ) : List Candidate :=
  patterns.filterMap (fun p =>
    if p.regex.test (lowerStr text) then
      if p.split && p.key == "legalName" then
        some { key := p.key, score := baseScore * 4 / 5 }
      else
        some { key := p.key, score := baseScore }
    else none)

/-- The autocomplete-token table of `matchAutocomplete`
(content.ts lines 181-188). -/
def autocompleteMapping : List (String × String) :=
  [ ("name", "legalName"), ("given-name", "legalName"),
    ("family-name", "legalName"), ("email", "email"),
    ("tel", "phone"), ("url", "portfolio") ]

/-- The function `FormAutofiller.matchAutocomplete` (content.ts lines 180-196): a mapped
autocomplete token yields one candidate at the fixed score 0.95 (95). -/
def matchAutocomplete (autocomplete : String) : List Candidate :=
  match autocompleteMapping.lookup autocomplete with
  | some key => [{ key := key, score := 95 }]
  | none => []

/-- One option of a select control: its `value` attribute and visible text. -/
structure SelectOption where
  value : String
  text : String
deriving Repr, DecidableEq

/-- One form control, with the attributes the engine reads.  Absent string
attributes are the empty string (the source guards each with JS truthiness,
under which the empty string and an absent attribute behave identically).
`labelText` is the text of the label resolved by `findLabel`
(content.ts lines 198-216), `none` when no label is associated. -/
structure FormControl where
  tag : String := "INPUT"
  type : String := "text"
  name : String := ""
  id : String := ""
  placeholder : String := ""
  autocomplete : String := ""
  ariaLabel : String := ""
  labelText : Option String := none
  value : String := ""
  options : List SelectOption := []
deriving Repr, DecidableEq

/-- Candidates from the `name` attribute, base score 0.8 (content.ts 93-95). -/
def nameSignals (f : FormControl) : List Candidate :=
  if f.name = "" then [] else matchPattern f.name 80

/-- Candidates from the `id` attribute, base score 0.7 (content.ts 96-98). -/
def idSignals (f : FormControl) : List Candidate :=
  if f.id = "" then [] else matchPattern f.id 70

/-- Candidates from the placeholder, base score 0.6 (content.ts 101-103). -/
def placeholderSignals (f : FormControl) : List Candidate :=
  if f.placeholder = "" then [] else matchPattern f.placeholder 60

/-- Candidates from the autocomplete token (content.ts 106-108). -/
def autocompleteSignals (f : FormControl) : List Candidate :=
  if f.autocomplete = "" then [] else matchAutocomplete f.autocomplete

/-- Candidates from the aria-label, base score 0.7 (content.ts 111-114). -/
def ariaSignals (f : FormControl) : List Candidate :=
  if f.ariaLabel = "" then [] else matchPattern f.ariaLabel 70

/-- Candidates from the associated label text, base score 0.9
(content.ts 117-120).  The source passes `label.textContent || ''` whenever a
label element is found. -/
def labelSignals (f : FormControl) : List Candidate :=
  match f.labelText with
  | some t => matchPattern t 90
  | none => []

/-- All candidates extracted for one control, in the extraction order of
`matchField` (content.ts lines 90-120): name, id, placeholder, autocomplete,
aria-label, associated label. -/
def signalsOf (f : FormControl) : List Candidate :=
  nameSignals f ++ idSignals f ++ placeholderSignals f ++
    autocompleteSignals f ++ ariaSignals f ++ labelSignals f

/-- The reducer of content.ts line 124:
`current.score > best.score ? current : best`. -/
def betterOf (best current : Candidate) : Candidate :=
  if current.score > best.score then current else best

/-- The candidate selection of content.ts lines 122-125: fold the reducer over
the signals starting from `{ key: '', score: 0 }`. -/
def bestMatch (signals : List Candidate) : Candidate :=
  signals.foldl betterOf { key := "", score := 0 }

/-- A value of the autofill answer map: a string or a boolean
(spec data model: `AutofillAnswerMap : SemanticKey → string | boolean`). -/
inductive AnswerValue where
  | str (s : String)
  | bool (b : Bool)
deriving Repr, DecidableEq

/-- The autofill answer map, keyed by semantic key. -/
def AnswerMap := List (String × AnswerValue)

/-- JS truthiness of an answer value (empty string and `false` are falsy). -/
def AnswerValue.truthy : AnswerValue → Bool
  | .str s => s ≠ ""
  | .bool b => b

/-- JS `String(v)` on an answer value. -/
def AnswerValue.toJSString : AnswerValue → String
  | .str s => s
  | .bool b => if b then "true" else "false"

/-- The value resolution of content.ts line 131:
`String(this.autofillData[bestMatch.key] || '')` — a missing or falsy entry
collapses to the empty string, a truthy entry is converted with `String`. -/
def resolveValue (data : AnswerMap) (key : String) : String :=
  match data.lookup key with
  | some v => if v.truthy then v.toJSString else ""
  | none => ""

/-- Confidence tier of a field match (content.ts line 5). -/
inductive Confidence where
  | high
  | medium
  | low
deriving Repr, DecidableEq

/-- A scan result for one control (content.ts lines 3-8). -/
structure FieldMatch where
  field : FormControl
  confidence : Confidence
  semanticKey : String
  value : String
deriving Repr, DecidableEq

/-- The function `FormAutofiller.matchField` (content.ts lines 87-142): collect the
candidates, pick the best, and produce a `FieldMatch` when its score exceeds
0.5 (50), with the tier from the 0.8 (80) / 0.65 (65) comparisons.  The
source binds `bestMatch(signals)` to a local; it is inlined here. -/
def matchField (data : AnswerMap) (f : FormControl) : Option FieldMatch :=
  if (bestMatch (signalsOf f)).score > 50 then
    some { field := f
         , confidence :=
             if (bestMatch (signalsOf f)).score > 80 then Confidence.high
             else if (bestMatch (signalsOf f)).score > 65 then
               Confidence.medium
             else Confidence.low
         , semanticKey := (bestMatch (signalsOf f)).key
         , value := resolveValue data (bestMatch (signalsOf f)).key }
  else none

/-- The eligibility filter of `detectFields` (content.ts lines 74-76):
submit, button and hidden inputs are skipped. -/
def eligibleType (t : String) : Bool :=
  !(t == "submit" || t == "button" || t == "hidden")

/-- The function `FormAutofiller.detectFields` (content.ts lines 67-85): walk the page's
controls in document order, skip ineligible types, and collect the matches. -/
def detectFields (data : AnswerMap) (page : List FormControl) : List FieldMatch :=
  page.filterMap (fun f => if eligibleType f.type then matchField data f
                           else none)

/-- The DOM events the executor dispatches. -/
inductive Ev where
  | input
  | change
deriving Repr, DecidableEq

/-- The outcome of one `fillField` call (content.ts lines 240-270): the
updated control, the dispatched events in order, and whether the review
marking (border highlight plus inline Review badge) was applied. -/
structure FillResult where
  field : FormControl
  events : List Ev
  marked : Bool
deriving Repr, DecidableEq

/-- The case-insensitive substring test of content.ts lines 248-249
(JS `String.prototype.includes`). -/
def strIncludes (hay needle : String) : Bool :=
  (hay.data.tails).any (fun t => needle.data.isPrefixOf t)

/-- The option predicate of content.ts lines 247-250: the option's value or
visible text contains the resolved value, case-insensitively. -/
def optMatches (value : String) (opt : SelectOption) : Bool :=
  strIncludes (lowerStr opt.value) (lowerStr value) ||
    strIncludes (lowerStr opt.text) (lowerStr value)

/-- The function `FormAutofiller.fillField` (content.ts lines 240-270).  For a select: the
first matching option is selected and one `change` event dispatched, no
option matching leaves the control untouched with no event.  For any other
control the value is set and `input` then `change` are dispatched.  In every
case the review marking is applied exactly when the `highlight` flag is set
(content.ts lines 261-269).  The record update describes the write when it
succeeds; on a file input with a non-empty value the host setter throws
before any event is dispatched — that case is marked by `fillThrows` below
and never reaches the update described here. -/
def fillField (f : FormControl) (value : String) (highlight : Bool) : FillResult :=
  if f.tag = "SELECT" then
    match f.options.find? (optMatches value) with
    | some opt =>
        { field := { f with value := opt.value }
        , events := [Ev.change], marked := highlight }
    | none => { field := f, events := [], marked := highlight }
  else
    { field := { f with value := value }
    , events := [Ev.input, Ev.change], marked := highlight }

/-- What the executor did with one match. -/
inductive FillAction where
  | skip (f : FormControl)
  | fill (r : FillResult) (fileAssist : Bool)
deriving Repr, DecidableEq

/-- The per-match body of `performAutofill` (content.ts lines 221-237): an
empty value returns early; otherwise high fills silently, medium fills with
the review marking, low falls into the final `else` and fills silently; a
file-typed control additionally gets the file-upload assistance. -/
def processMatch (m : FieldMatch) : FillAction :=
  if m.value = "" then FillAction.skip m.field
  else
    FillAction.fill
      (if m.confidence = Confidence.high then fillField m.field m.value false
       else if m.confidence = Confidence.medium then
         fillField m.field m.value true
       else fillField m.field m.value false)
      (m.field.type == "file")

/-- The per-match actions of `FormAutofiller.performAutofill`
(content.ts lines 218-238) when no fill throws: `matches.forEach` applies the
per-match body to every match.  `performAutofillHost` below is the
host-faithful iteration, on which a throwing fill aborts the remaining
matches. -/
def performAutofill (ms : List FieldMatch) : List FillAction :=
  ms.map processMatch

/-- Whether the host DOM setter throws on the value write of `fillField`:
the non-select branch executes `field.value = value`, and per the HTML
standard assigning a non-empty string to a file input's value throws
InvalidStateError.  The source performs this assignment unconditionally —
`performAutofill` calls `fillField` before its `type === 'file'` check
(content.ts lines 224-235) and has no try/catch. -/
def fillThrows (f : FormControl) (value : String) : Bool :=
  !(f.tag == "SELECT") && f.type == "file" && !(value == "")

/-- The outcome of one autofill pass under host semantics: either every
match was processed, or an uncaught exception aborted the `forEach`, leaving
the actions completed before the throw and the match whose fill threw. -/
inductive PassOutcome where
  | completed (actions : List FillAction)
  | aborted (done : List FillAction) (failed : FieldMatch)
deriving Repr, DecidableEq

/-- Prepend a completed action to a pass outcome. -/
def PassOutcome.consAction (a : FillAction) : PassOutcome → PassOutcome
  | .completed as => .completed (a :: as)
  | .aborted done e => .aborted (a :: done) e

/-- The function `FormAutofiller.performAutofill` under host DOM semantics
(content.ts lines 218-238): each iteration returns early on an empty value,
otherwise calls `fillField`; when that value write throws, the exception
propagates out of the `forEach` callback and the remaining matches are never
processed. -/
def performAutofillHost : List FieldMatch → PassOutcome
  | [] => PassOutcome.completed []
  | m :: rest =>
      if m.value = "" then
        (performAutofillHost rest).consAction (processMatch m)
      else if fillThrows m.field m.value then PassOutcome.aborted [] m
      else (performAutofillHost rest).consAction (processMatch m)

/-- The review marking applied by an action. -/
def markedOf : FillAction → Bool
  | .skip _ => false
  | .fill r _ => r.marked

/-- The content-script state a scan pass can read: the fetched answer map and
the current page.  `detectFields` only reads the DOM and `autofillData`
(content.ts lines 67-142 perform no writes), so a pass returns the state it
was given. -/
structure EngineState where
  autofillData : AnswerMap
  page : List FormControl

/-- One Page Scanner pass over the current state. -/
def scanPass (st : EngineState) : EngineState × List FieldMatch :=
  (st, detectFields st.autofillData st.page)

/-- Message types for which the content script registers a runtime
message listener.  `FormAutofiller.init` (content.ts lines 18-44) wires a
storage read, a MutationObserver on `document.body` and a one-second timer,
and content.ts registers no `chrome.runtime.onMessage` handler anywhere, so
no message type is handled. -/
def contentScriptHandledMessageTypes : List String := []

/-- The message type the popup sends when the Autofill button is clicked
(popup.ts line 19). -/
def popupTriggerMessageType : String := "TRIGGER_AUTOFILL"

/-! ## Helper lemmas -/

/-- Every candidate `matchPattern` emits scores either the base score or the
base score discounted by 0.8 (the split-name entries). -/
lemma matchPattern_score {t : String} {b : ℕ} {c : Candidate}
    (hc : c ∈ matchPattern t b) : c.score = b ∨ c.score = b * 4 / 5 := by
  simp only [matchPattern, List.mem_filterMap] at hc
  obtain ⟨p, -, hp⟩ := hc
  by_cases h1 : p.regex.test (lowerStr t)
  · rw [if_pos h1] at hp
    by_cases h2 : p.split && p.key == "legalName"
    · rw [if_pos h2] at hp
      simp only [Option.some.injEq] at hp
      subst hp
      exact Or.inr rfl
    · rw [if_neg h2] at hp
      simp only [Option.some.injEq] at hp
      subst hp
      exact Or.inl rfl
  · rw [if_neg h1] at hp
    exact absurd hp (by simp)

/-- Every candidate `matchAutocomplete` emits has score 0.95 (95). -/
lemma matchAutocomplete_score {s : String} {c : Candidate}
    (hc : c ∈ matchAutocomplete s) : c.score = 95 := by
  unfold matchAutocomplete at hc
  cases h : autocompleteMapping.lookup s with
  | none => rw [h] at hc; exact absurd hc (by simp)
  | some k =>
      rw [h] at hc
      simp only [List.mem_singleton] at hc
      subst hc
      rfl

lemma nameSignals_bounds {f : FormControl} {c : Candidate}
    (hc : c ∈ nameSignals f) : 0 < c.score ∧ c.score ≤ 80 := by
  unfold nameSignals at hc
  split at hc
  · exact absurd hc (by simp)
  · rcases matchPattern_score hc with h | h <;> rw [h] <;> norm_num

lemma idSignals_bounds {f : FormControl} {c : Candidate}
    (hc : c ∈ idSignals f) : 0 < c.score ∧ c.score ≤ 70 := by
  unfold idSignals at hc
  split at hc
  · exact absurd hc (by simp)
  · rcases matchPattern_score hc with h | h <;> rw [h] <;> norm_num

lemma placeholderSignals_bounds {f : FormControl} {c : Candidate}
    (hc : c ∈ placeholderSignals f) : 0 < c.score ∧ c.score ≤ 60 := by
  unfold placeholderSignals at hc
  split at hc
  · exact absurd hc (by simp)
  · rcases matchPattern_score hc with h | h <;> rw [h] <;> norm_num

lemma autocompleteSignals_bounds {f : FormControl} {c : Candidate}
    (hc : c ∈ autocompleteSignals f) : 0 < c.score ∧ c.score ≤ 95 := by
  unfold autocompleteSignals at hc
  split at hc
  · exact absurd hc (by simp)
  · rw [matchAutocomplete_score hc]; norm_num

lemma ariaSignals_bounds {f : FormControl} {c : Candidate}
    (hc : c ∈ ariaSignals f) : 0 < c.score ∧ c.score ≤ 70 := by
  unfold ariaSignals at hc
  split at hc
  · exact absurd hc (by simp)
  · rcases matchPattern_score hc with h | h <;> rw [h] <;> norm_num

lemma labelSignals_bounds {f : FormControl} {c : Candidate}
    (hc : c ∈ labelSignals f) : 0 < c.score ∧ c.score ≤ 90 := by
  unfold labelSignals at hc
  cases hl : f.labelText with
  | none => rw [hl] at hc; exact absurd hc (by simp)
  | some t =>
      rw [hl] at hc
      rcases matchPattern_score hc with h | h <;> rw [h] <;> norm_num

/-- Every extracted candidate has a positive score. -/
lemma signalsOf_pos {f : FormControl} {c : Candidate}
    (hc : c ∈ signalsOf f) : 0 < c.score := by
  simp only [signalsOf, List.mem_append] at hc
  rcases hc with ((((h | h) | h) | h) | h) | h
  · exact (nameSignals_bounds h).1
  · exact (idSignals_bounds h).1
  · exact (placeholderSignals_bounds h).1
  · exact (autocompleteSignals_bounds h).1
  · exact (ariaSignals_bounds h).1
  · exact (labelSignals_bounds h).1

/-- The reducer keeps its accumulator when no later score beats it. -/
lemma foldl_betterOf_stay (l : List Candidate) :
    ∀ b, (∀ x ∈ l, x.score ≤ b.score) → l.foldl betterOf b = b := by
  induction l with
  | nil => intro b _; rfl
  | cons x xs ih =>
      intro b h
      have hx : x.score ≤ b.score := h x (List.mem_cons_self x xs)
      have hbx : betterOf b x = b := by
        unfold betterOf; rw [if_neg (not_lt.mpr hx)]
      rw [List.foldl_cons, hbx]
      exact ih b (fun y hy => h y (List.mem_cons_of_mem x hy))

/-- The reducer never decreases the accumulator score. -/
lemma foldl_betterOf_le_init (l : List Candidate) :
    ∀ b : Candidate, b.score ≤ (l.foldl betterOf b).score := by
  induction l with
  | nil => intro b; exact le_refl _
  | cons x xs ih =>
      intro b
      rw [List.foldl_cons]
      refine le_trans ?_ (ih (betterOf b x))
      unfold betterOf
      split_ifs with h
      · exact le_of_lt h
      · exact le_refl _

/-- The reducer result bounds every list element's score. -/
lemma foldl_betterOf_mem_le (l : List Candidate) :
    ∀ b, ∀ x ∈ l, x.score ≤ (l.foldl betterOf b).score := by
  induction l with
  | nil => intro b x hx; exact absurd hx (by simp)
  | cons y ys ih =>
      intro b x hx
      rw [List.foldl_cons]
      rcases List.mem_cons.mp hx with rfl | hx'
      · refine le_trans ?_ (foldl_betterOf_le_init ys (betterOf b x))
        unfold betterOf
        split_ifs with h
        · exact le_refl _
        · exact not_lt.mp h
      · exact ih (betterOf b y) x hx'

/-- The first candidate whose score strictly beats everything before it and is
not beaten by anything after it wins the fold. -/
lemma foldl_betterOf_win :
    ∀ (l₁ : List Candidate) (c : Candidate) (l₂ : List Candidate)
      (b : Candidate), b.score < c.score → (∀ x ∈ l₁, x.score < c.score) →
      (∀ x ∈ l₂, x.score ≤ c.score) → (l₁ ++ c :: l₂).foldl betterOf b = c := by
  intro l₁
  induction l₁ with
  | nil =>
      intro c l₂ b hb h₁ h₂
      simp only [List.nil_append, List.foldl_cons]
      have hbc : betterOf b c = c := by unfold betterOf; rw [if_pos hb]
      rw [hbc]
      exact foldl_betterOf_stay l₂ c h₂
  | cons x xs ih =>
      intro c l₂ b hb h₁ h₂
      simp only [List.cons_append, List.foldl_cons]
      have hb' : (betterOf b x).score < c.score := by
        unfold betterOf
        split_ifs with h
        · exact h₁ x (List.mem_cons_self _ _)
        · exact hb
      exact ih c l₂ (betterOf b x) hb'
        (fun y hy => h₁ y (List.mem_cons_of_mem _ hy)) h₂

/-- The function `List.find?` returns the first element satisfying the predicate. -/
lemma find?_first {α : Type} (p : α → Bool) :
    ∀ (l₁ : List α) (o : α) (l₂ : List α), (∀ x ∈ l₁, p x = false) →
      p o = true → (l₁ ++ o :: l₂).find? p = some o := by
  intro l₁
  induction l₁ with
  | nil =>
      intro o l₂ _ ho
      simpa using List.find?_cons_of_pos l₂ ho
  | cons x xs ih =>
      intro o l₂ h₁ ho
      have hx := h₁ x (List.mem_cons_self _ _)
      simp only [List.cons_append]
      rw [List.find?_cons_of_neg _ (by simp [hx])]
      exact ih o l₂ (fun y hy => h₁ y (List.mem_cons_of_mem _ hy)) ho

/-! ## Claims -/

/-- C1: for every control processed by the field scorer, the confidence tier
of a produced FieldMatch is a pure function of the winning candidate score
with exact boundaries (scores in hundredths): a score strictly above 0.8
(80) yields high, strictly above 0.65 (65) and at most 0.8 yields medium,
strictly above 0.5 (50) and at most 0.65 yields low, and a score of 0.5 or
less produces no FieldMatch at all. -/
theorem confidence_tier_pure_function_of_score (data : AnswerMap)
    (f : FormControl) :
    ((bestMatch (signalsOf f)).score ≤ 50 → matchField data f = none) ∧
    (∀ m, matchField data f = some m →
      ((m.confidence = Confidence.high ↔
          80 < (bestMatch (signalsOf f)).score) ∧
       (m.confidence = Confidence.medium ↔
          65 < (bestMatch (signalsOf f)).score ∧
            (bestMatch (signalsOf f)).score ≤ 80) ∧
       (m.confidence = Confidence.low ↔
          50 < (bestMatch (signalsOf f)).score ∧
            (bestMatch (signalsOf f)).score ≤ 65))) := by
  constructor
  · intro hle
    unfold matchField
    rw [if_neg (not_lt.mpr hle)]
  · intro m hm
    unfold matchField at hm
    by_cases h5 : 50 < (bestMatch (signalsOf f)).score
    · rw [if_pos h5] at hm
      have hc : m.confidence =
          (if (bestMatch (signalsOf f)).score > 80 then Confidence.high
           else if (bestMatch (signalsOf f)).score > 65 then
             Confidence.medium
           else Confidence.low) := by
        rw [← Option.some.inj hm]
      by_cases h8 : 80 < (bestMatch (signalsOf f)).score
      · rw [if_pos h8] at hc
        refine ⟨⟨fun _ => h8, fun _ => hc⟩, ⟨?_, ?_⟩, ⟨?_, ?_⟩⟩
        · intro hmed; exact absurd (hc.symm.trans hmed) (by decide)
        · rintro ⟨-, hle8⟩; exact absurd h8 (not_lt.mpr hle8)
        · intro hlow; exact absurd (hc.symm.trans hlow) (by decide)
        · rintro ⟨-, hle65⟩
          exact absurd h8 (not_lt.mpr (le_trans hle65 (by norm_num)))
      · rw [if_neg h8] at hc
        by_cases h65 : 65 < (bestMatch (signalsOf f)).score
        · rw [if_pos h65] at hc
          refine ⟨⟨?_, ?_⟩, ⟨fun _ => ⟨h65, not_lt.mp h8⟩, fun _ => hc⟩,
            ⟨?_, ?_⟩⟩
          · intro hhigh; exact absurd (hc.symm.trans hhigh) (by decide)
          · intro h8'; exact absurd h8' h8
          · intro hlow; exact absurd (hc.symm.trans hlow) (by decide)
          · rintro ⟨-, hle65⟩; exact absurd h65 (not_lt.mpr hle65)
        · rw [if_neg h65] at hc
          refine ⟨⟨?_, ?_⟩, ⟨?_, ?_⟩,
            ⟨fun _ => ⟨h5, not_lt.mp h65⟩, fun _ => hc⟩⟩
          · intro hhigh; exact absurd (hc.symm.trans hhigh) (by decide)
          · intro h8'; exact absurd h8' h8
          · intro hmed; exact absurd (hc.symm.trans hmed) (by decide)
          · rintro ⟨h65', -⟩; exact absurd h65' h65
    · rw [if_neg h5] at hm
      exact absurd hm (by simp)

/-- A text input whose only signal is the attribute `name="first_name"`. -/
def firstNameInput : FormControl := { name := "first_name" }

/-- C2: an input control whose only signal is `name="first_name"` yields a
FieldMatch with semantic key legalName and confidence tier medium (the bare
`name` pattern of the table matches the attribute at the full base score
0.8 = 80, alongside the discounted split-name candidate at 0.64 = 64). -/
theorem first_name_input_yields_legalName_medium (data : AnswerMap) :
    matchField data firstNameInput =
      some { field := firstNameInput, confidence := Confidence.medium
           , semanticKey := "legalName"
           , value := resolveValue data "legalName" } := by
  have hb : bestMatch (signalsOf firstNameInput) =
      { key := "legalName", score := 80 } := by decide
  unfold matchField
  rw [hb]
  norm_num

/-- The review marking is applied exactly when the highlight flag is set,
whatever kind of control is filled (content.ts lines 261-269 run after the
per-kind branches). -/
lemma fillField_marked (f : FormControl) (v : String) (hl : Bool) :
    (fillField f v hl).marked = hl := by
  unfold fillField
  split_ifs
  · rcases h : f.options.find? (optMatches v) with - | opt <;> rfl
  · rfl

/-- A control whose only signal is `name="email"` (used as a concrete input
below). -/
def emailNameInput : FormControl := { name := "email" }

/-- The FieldMatch the engine produces for `emailNameInput` with an empty
answer map. -/
def emailNameMatch : FieldMatch :=
  { field := emailNameInput, confidence := Confidence.medium
  , semanticKey := "email", value := "" }

/-- C1 witness: with an empty answer map, `name="email"` wins at score 0.8
(80), and the theorem's boundaries place it in the medium tier. -/
theorem confidence_tier_witness :
    matchField [] emailNameInput = some emailNameMatch ∧
    emailNameMatch.confidence = Confidence.medium := by
  have h := (confidence_tier_pure_function_of_score [] emailNameInput).2
    emailNameMatch (by decide)
  exact ⟨by decide, h.2.1.mpr (by decide)⟩

/-- A low-confidence match with a non-empty value, on a plain text input. -/
def lowMatchSample : FieldMatch :=
  { field := {}, confidence := Confidence.low
  , semanticKey := "email", value := "x@y.z" }

/-- The same match at medium confidence. -/
def mediumMatchSample : FieldMatch :=
  { field := {}, confidence := Confidence.medium
  , semanticKey := "email", value := "x@y.z" }

/-- C3 counterexample: a low-confidence match with a non-empty value is
filled without the review marking, while the same match at medium confidence
is marked — low is not treated like medium, refuting the claim. -/
theorem low_fill_not_marked_counterexample :
    markedOf (processMatch lowMatchSample) = false ∧
    markedOf (processMatch mediumMatchSample) = true := by decide

/-- C3 (amended): for every FieldMatch with a non-empty resolved value and
confidence tier low, the executor fills the control exactly as it does a
high-confidence fill — silently, with the highlight flag unset, so no border
highlight and no Review badge (content.ts lines 228-231, the final `else`
calls `fillField(field, value)` with the default `highlight = false`). -/
theorem low_fill_unmarked_like_high (m : FieldMatch) (hv : m.value ≠ "")
    (hc : m.confidence = Confidence.low) :
    processMatch m =
      FillAction.fill (fillField m.field m.value false)
        (m.field.type == "file") ∧
    markedOf (processMatch m) = false := by
  have hfill : processMatch m =
      FillAction.fill (fillField m.field m.value false)
        (m.field.type == "file") := by
    unfold processMatch
    rw [if_neg hv, hc]
    rfl
  refine ⟨hfill, ?_⟩
  rw [hfill]
  show (fillField m.field m.value false).marked = false
  exact fillField_marked m.field m.value false

/-- C3 witness: the amended theorem applied to the concrete low-confidence
match. -/
theorem low_fill_unmarked_witness :
    processMatch lowMatchSample =
      FillAction.fill (fillField lowMatchSample.field "x@y.z" false) false ∧
    markedOf (processMatch lowMatchSample) = false := by
  have h := low_fill_unmarked_like_high lowMatchSample (by decide) (by decide)
  exact ⟨h.1, h.2⟩

/-- C4: the popup's user-invoked trigger-autofill message is not among the
message types the content script handles — content.ts registers no
`chrome.runtime.onMessage` listener, so the message triggers no scan or fill
pass and no `{success}` response is produced (popup.ts lines 17-29 send it
and expect one). -/
theorem trigger_autofill_unhandled_by_content_script :
    popupTriggerMessageType ∉ contentScriptHandledMessageTypes ∧
    contentScriptHandledMessageTypes = [] :=
  ⟨List.not_mem_nil _, rfl⟩

/-- C5: for every control, the field scorer selects the candidate with the
maximum score among all candidates extracted for that control, and when two
candidates have equal maximal scores the one extracted first wins: whenever
the extracted candidate list splits as `l₁ ++ c :: l₂` with everything in
`l₁` strictly below `c` and nothing in `l₂` above it (`c` is the first
maximal candidate), the reducer returns `c` itself. -/
theorem best_candidate_max_first_tiebreak (f : FormControl) (c : Candidate)
    (l₁ l₂ : List Candidate) (hshape : signalsOf f = l₁ ++ c :: l₂)
    (h₁ : ∀ x ∈ l₁, x.score < c.score) (h₂ : ∀ x ∈ l₂, x.score ≤ c.score) :
    bestMatch (signalsOf f) = c ∧
    ∀ x ∈ signalsOf f, x.score ≤ c.score := by
  have hmem : c ∈ signalsOf f := by
    rw [hshape]
    exact List.mem_append_right _ (List.mem_cons_self _ _)
  have hpos : 0 < c.score := signalsOf_pos hmem
  constructor
  · rw [hshape]
    exact foldl_betterOf_win l₁ c l₂ _ hpos h₁ h₂
  · intro x hx
    rw [hshape] at hx
    rcases List.mem_append.mp hx with h | h
    · exact le_of_lt (h₁ x h)
    · rcases List.mem_cons.mp h with rfl | h
      · exact le_refl _
      · exact h₂ x h

/-- A control whose id matches both the phone and the github patterns at the
same score 0.7 (70) — a genuine tie between distinct candidates. -/
def tieInput : FormControl := { id := "phone_github" }

/-- C5 witness: on the tied candidates `phone` and `github` (both scored 70,
from the id attribute), the first-extracted one, `phone`, wins. -/
theorem best_candidate_tiebreak_witness :
    bestMatch (signalsOf tieInput) = { key := "phone", score := 70 } ∧
    signalsOf tieInput =
      [{ key := "phone", score := 70 }, { key := "github", score := 70 }] := by
  refine ⟨?_, by decide⟩
  exact (best_candidate_max_first_tiebreak tieInput
    { key := "phone", score := 70 } [] [{ key := "github", score := 70 }]
    (by decide)
    (by intro x hx; exact absurd hx (List.not_mem_nil x))
    (by intro x hx; rw [List.mem_singleton] at hx; subst hx; exact le_refl _)).1

/-- C6: for every control carrying `autocomplete="email"`, the winning
candidate is the autocomplete one at score 0.95 (95) with key `email`, no
matter what its other attributes or label text contribute — every regex-table
candidate scores at most 0.9 (90) — so the produced FieldMatch has semantic
key `email` (and tier high). -/
theorem autocomplete_email_wins (data : AnswerMap) (f : FormControl)
    (h : f.autocomplete = "email") :
    bestMatch (signalsOf f) = { key := "email", score := 95 } ∧
    matchField data f =
      some { field := f, confidence := Confidence.high
           , semanticKey := "email", value := resolveValue data "email" } := by
  have hx : autocompleteSignals f = [{ key := "email", score := 95 }] := by
    unfold autocompleteSignals
    rw [h]
    decide
  have hshape : signalsOf f =
      (nameSignals f ++ idSignals f ++ placeholderSignals f) ++
        ({ key := "email", score := 95 } : Candidate) ::
          (ariaSignals f ++ labelSignals f) := by
    rw [signalsOf, hx]
    simp [List.append_assoc]
  have hbest : bestMatch (signalsOf f) = { key := "email", score := 95 } := by
    rw [hshape]
    apply foldl_betterOf_win
    · decide
    · intro x hmem
      rcases List.mem_append.mp hmem with h' | h'
      · rcases List.mem_append.mp h' with h'' | h''
        · exact lt_of_le_of_lt (nameSignals_bounds h'').2 (by norm_num)
        · exact lt_of_le_of_lt (idSignals_bounds h'').2 (by norm_num)
      · exact lt_of_le_of_lt (placeholderSignals_bounds h').2 (by norm_num)
    · intro x hmem
      rcases List.mem_append.mp hmem with h' | h'
      · exact le_trans (ariaSignals_bounds h').2 (by norm_num)
      · exact le_trans (labelSignals_bounds h').2 (by norm_num)
  refine ⟨hbest, ?_⟩
  unfold matchField
  rw [hbest]
  norm_num

/-- A control with conflicting signals: a phone-matching name, a Full
Name-matching label, and `autocomplete="email"`. -/
def adversarialEmailInput : FormControl :=
  { name := "phone", autocomplete := "email", labelText := some "Full Name" }

/-- C6 witness: `autocomplete="email"` wins over the phone name signal and
the Full Name label. -/
theorem autocomplete_email_witness :
    matchField [] adversarialEmailInput =
      some { field := adversarialEmailInput, confidence := Confidence.high
           , semanticKey := "email", value := "" } :=
  (autocomplete_email_wins [] adversarialEmailInput rfl).2

/-- C7: a Page Scanner pass is a pure function of the current state and
changes nothing it reads, so scanning twice without any intervening change
yields identical FieldMatch lists (same controls, keys, tiers, values, in
the same order). -/
theorem scan_idempotent (st : EngineState) :
    (scanPass st).1 = st ∧ (scanPass (scanPass st).1).2 = (scanPass st).2 :=
  ⟨rfl, rfl⟩

/-- C8: filling a select control selects the first option whose value or
visible text contains the resolved value case-insensitively and dispatches a
change event exactly once; when no option matches, the select is left
unchanged and no event is dispatched. -/
theorem fillField_select_behavior (f : FormControl) (v : String) (hl : Bool)
    (hf : f.tag = "SELECT") :
    ((∀ o ∈ f.options, optMatches v o = false) →
      fillField f v hl = { field := f, events := [], marked := hl }) ∧
    (∀ (o : SelectOption) (l₁ l₂ : List SelectOption),
      f.options = l₁ ++ o :: l₂ → (∀ x ∈ l₁, optMatches v x = false) →
      optMatches v o = true →
      fillField f v hl =
        { field := { f with value := o.value }
        , events := [Ev.change], marked := hl } ∧
      (fillField f v hl).events.count Ev.change = 1) := by
  constructor
  · intro hnone
    have hfind : f.options.find? (optMatches v) = none :=
      List.find?_eq_none.mpr (fun x hmem => by simp [hnone x hmem])
    unfold fillField
    rw [if_pos hf, hfind]
  · intro o l₁ l₂ hopt h₁ ho
    have hfind : f.options.find? (optMatches v) = some o := by
      rw [hopt]
      exact find?_first _ l₁ o l₂ h₁ ho
    constructor
    · unfold fillField
      rw [if_pos hf, hfind]
    · unfold fillField
      rw [if_pos hf, hfind]
      rfl

/-- The work-authorization select of E2E scenario 4. -/
def workAuthSelect : FormControl :=
  { tag := "SELECT", type := "select-one"
  , options := [{ value := "US Citizen", text := "US Citizen" },
                { value := "Needs Sponsorship", text := "Needs Sponsorship" }] }

/-- C8 witness: on the scenario-4 select, filling with "US Citizen" selects
that option and dispatches exactly one change event. -/
theorem fillField_select_witness :
    fillField workAuthSelect "US Citizen" false =
      { field := { workAuthSelect with value := "US Citizen" }
      , events := [Ev.change], marked := false } ∧
    (fillField workAuthSelect "US Citizen" false).events.count Ev.change
      = 1 := by
  have h := (fillField_select_behavior workAuthSelect "US Citizen" false
      rfl).2
    { value := "US Citizen", text := "US Citizen" } []
    [{ value := "Needs Sponsorship", text := "Needs Sponsorship" }]
    (by decide) (by intro x hx; exact absurd hx (List.not_mem_nil x))
    (by decide)
  exact ⟨h.1, h.2⟩

/-- A file input whose name matches the portfolio pattern at score 0.8. -/
def portfolioFileInput : FormControl := { type := "file", name := "portfolio" }

/-- A page with the matched file input followed by an email text input. -/
def fileAbortPage : List FormControl := [portfolioFileInput, emailNameInput]

/-- Answers resolving both controls of `fileAbortPage` to truthy strings. -/
def fileAbortData : AnswerMap :=
  [("portfolio", AnswerValue.str "https://me.example"),
   ("email", AnswerValue.str "a@b.c")]

/-- The FieldMatch the scanner produces for `portfolioFileInput`. -/
def portfolioFileMatch : FieldMatch :=
  { field := portfolioFileInput, confidence := Confidence.medium
  , semanticKey := "portfolio", value := "https://me.example" }

/-- The FieldMatch the scanner produces for the email input that follows. -/
def emailTextMatch : FieldMatch :=
  { field := emailNameInput, confidence := Confidence.medium
  , semanticKey := "email", value := "a@b.c" }

/-- C9: the claim fails on the code — per-field failures are not all local.
The scanner matches the file input (portfolio, 0.8, value resolved truthy)
ahead of the email input; the pass then calls `fillField` on it before the
`type === 'file'` check, the host value write throws, and the exception
aborts the `forEach`: nothing is filled and the email match that follows is
never processed, although alone it would be processed fine. -/
theorem autofill_file_input_aborts_pass :
    detectFields fileAbortData fileAbortPage =
      [portfolioFileMatch, emailTextMatch] ∧
    performAutofillHost (detectFields fileAbortData fileAbortPage) =
      PassOutcome.aborted [] portfolioFileMatch ∧
    performAutofillHost [emailTextMatch] =
      PassOutcome.completed [processMatch emailTextMatch] := by decide

/-- C10: a produced FieldMatch carries the JS string conversion of the
answer-map entry for its winning semantic key — a missing entry, an empty
string and boolean false all collapse to the empty string (on which the
executor skips the field), and boolean true becomes the literal string
"true", which a fill on a non-select control writes into the control. -/
theorem matchField_value_semantics (data : AnswerMap) (f : FormControl)
    (m : FieldMatch) (hm : matchField data f = some m) :
    m.value = resolveValue data m.semanticKey ∧
    (data.lookup m.semanticKey = none → m.value = "") ∧
    (data.lookup m.semanticKey = some (AnswerValue.str "") →
      m.value = "") ∧
    (data.lookup m.semanticKey = some (AnswerValue.bool false) →
      m.value = "") ∧
    (m.value = "" → processMatch m = FillAction.skip m.field) ∧
    (data.lookup m.semanticKey = some (AnswerValue.bool true) →
      m.value = "true") ∧
    (m.value = "true" → m.field.tag ≠ "SELECT" →
      ∃ r fa, processMatch m = FillAction.fill r fa ∧
        r.field.value = "true") := by
  unfold matchField at hm
  by_cases h5 : 50 < (bestMatch (signalsOf f)).score
  · rw [if_pos h5] at hm
    have hkey : m.semanticKey = (bestMatch (signalsOf f)).key := by
      rw [← Option.some.inj hm]
    have hval : m.value =
        resolveValue data (bestMatch (signalsOf f)).key := by
      rw [← Option.some.inj hm]
    refine ⟨by rw [hval, hkey], ?_, ?_, ?_, ?_, ?_, ?_⟩
    · intro h
      rw [hkey] at h
      rw [hval]
      unfold resolveValue
      rw [h]
    · intro h
      rw [hkey] at h
      rw [hval]
      unfold resolveValue
      rw [h]
      decide
    · intro h
      rw [hkey] at h
      rw [hval]
      unfold resolveValue
      rw [h]
      decide
    · intro hv
      unfold processMatch
      rw [if_pos hv]
    · intro h
      rw [hkey] at h
      rw [hval]
      unfold resolveValue
      rw [h]
      decide
    · intro hv htag
      have hne : ¬ m.value = "" := by
        rw [hv]
        decide
      have hfv : ∀ hl : Bool,
          (fillField m.field m.value hl).field.value = "true" := by
        intro hl
        unfold fillField
        rw [if_neg htag, hv]
      unfold processMatch
      rw [if_neg hne]
      refine ⟨_, _, rfl, ?_⟩
      by_cases hc1 : m.confidence = Confidence.high
      · rw [if_pos hc1]
        exact hfv false
      · rw [if_neg hc1]
        by_cases hc2 : m.confidence = Confidence.medium
        · rw [if_pos hc2]
          exact hfv true
        · rw [if_neg hc2]
          exact hfv false
  · rw [if_neg h5] at hm
    exact absurd hm (by simp)

/-- An answer map resolving the email key to boolean true. -/
def boolTrueData : AnswerMap := [("email", AnswerValue.bool true)]

/-- The FieldMatch produced for `name="email"` under `boolTrueData`. -/
def trueValueMatch : FieldMatch :=
  { field := emailNameInput, confidence := Confidence.medium
  , semanticKey := "email", value := "true" }

/-- C10 witness: with the email answer set to boolean true, the produced
match carries the literal value "true" and a fill writes it into the text
control. -/
theorem matchField_value_witness :
    matchField boolTrueData emailNameInput = some trueValueMatch ∧
    trueValueMatch.value = "true" ∧
    (∃ r fa, processMatch trueValueMatch = FillAction.fill r fa ∧
      r.field.value = "true") := by
  have h := matchField_value_semantics boolTrueData emailNameInput
    trueValueMatch (by decide)
  refine ⟨by decide, h.2.2.2.2.2.1 (by decide), ?_⟩
  exact h.2.2.2.2.2.2 (h.2.2.2.2.2.1 (by decide)) (by decide)
